import Mathlib

/-!
# Channels repository and posts connection

A shallow embedding of `src/repoPosts.go` (the channels repository) and of
`src/main/repoPostsConnection.go` (the posts connection enumerator), with the
theorems that settle the claims made about them.

Conventions of the embedding:

* A Go pointer that may be nil is an `Option`.
* A Go `error` result is an `Option Error`; `none` is the nil error.
* The App Engine datastore is a library outside the repository.  It is modelled
  by the namespace `datastore`: keys are paths of elements, the stored entities
  are an association list, and every remote call consumes one entry of a fault
  schedule that says whether this call fails.
* The callback `usePost` of `enumerate` is observed through the list of the
  posts it was called with, in call order.
-/

/-- Go error values, identified by their message. -/
structure Error where
  message : String
deriving DecidableEq, Repr

namespace errors

/-- Go's `errors.New`. -/
def New (message : String) : Error := ⟨message⟩

end errors

/-- How a Go call ends: it returns a value, or the goroutine panics. -/
inductive GoResult (α : Type) where
  | returned (value : α)
  | panicked (reason : String)
deriving DecidableEq, Repr

namespace datastore

/-- One element of a datastore key: the kind and the string or integer identifier. -/
structure PathElement where
  kind : String
  stringID : String
  intID : Int
deriving DecidableEq, Repr

/-- A datastore key (`*datastore.Key` when not nil), as its path of elements from the
root entity down to the entity itself. -/
structure Key where
  path : List PathElement
deriving DecidableEq, Repr

/-- Go's `datastore.NewKey(ctx, kind, stringID, intID, parent)`. -/
def NewKey (kind stringID : String) (intID : Int) (parent : Option Key) : Key :=
  ⟨(match parent with
    | some p => p.path
    | none => []) ++ [⟨kind, stringID, intID⟩]⟩

/-- Go's `datastore.NewIncompleteKey(ctx, kind, parent)`. -/
def NewIncompleteKey (kind : String) (parent : Option Key) : Key :=
  NewKey kind "" 0 parent

/-- Whether an element has neither a string nor an integer identifier. -/
def PathElement.Incomplete (e : PathElement) : Bool :=
  decide (e.stringID = "") && decide (e.intID = 0)

/-- Go's `(*Key).Incomplete`: the key's own (last) element has no identifier. -/
def Key.Incomplete (k : Key) : Bool :=
  match k.path.getLast? with
  | some e => e.Incomplete
  | none => true

/-- Validity of the elements of a path, root first: a kind is never empty, an element
never has both identifiers, and every element that has a child is complete. -/
def validPath : List PathElement → Bool
  | [] => true
  | [e] => decide (e.kind ≠ "") && !(decide (e.stringID ≠ "") && decide (e.intID ≠ 0))
  | e :: f :: rest =>
    decide (e.kind ≠ "") && !(decide (e.stringID ≠ "") && decide (e.intID ≠ 0))
      && !e.Incomplete && validPath (f :: rest)

/-- The library's `(*Key).valid`. -/
def Key.valid (k : Key) : Bool :=
  decide (k.path ≠ []) && validPath k.path

/-- Whether `k` lies under the ancestor `a` (an entity is its own ancestor). -/
def Key.hasAncestor (k a : Key) : Bool :=
  decide (k.path.take a.path.length = a.path)

/-- The kind of the entity a key names. -/
def Key.kind (k : Key) : String :=
  match k.path.getLast? with
  | some e => e.kind
  | none => ""

/-- The key completed with the integer identifier `id`. -/
def Key.complete (k : Key) (id : Int) : Key :=
  match k.path.getLast? with
  | some e => ⟨k.path.dropLast ++ [{ e with intID := id }]⟩
  | none => k

/-- The library's `ErrNoSuchEntity`. -/
def ErrNoSuchEntity : Error := errors.New "datastore: no such entity"

/-- The library's `ErrInvalidKey`. -/
def ErrInvalidKey : Error := errors.New "datastore: invalid key"

/-- The error of a call that loads an entity into a struct of another shape.  The
library's `*ErrFieldMismatch` goes on to name the field, the struct type and the
reason in its message; the text here stops before them. -/
def ErrFieldMismatch : Error := errors.New "datastore: cannot load field"

/-- The error of `Limit` with a value outside the 32 bit range, reported by the iterator. -/
def ErrLimitOverflow : Error := errors.New "datastore: query limit overflow"

end datastore

/-- MarkdownDocument is a text/markdown document. -/
structure MarkdownDocument where
  Source : String
deriving DecidableEq, Repr

/-- NewMarkdownDocument makes a Markdown. -/
def NewMarkdownDocument (source : String) : MarkdownDocument :=
  { Source := source }

/-- ChannelContent holds main data of a channel. -/
structure ChannelContent where
  Key : Option datastore.Key
  Slug : String
  Description : String
deriving DecidableEq, Repr

/-- ChannelSlug allows a channel to be found by slug. -/
structure ChannelSlug where
  ContentKey : Option datastore.Key
deriving DecidableEq, Repr

/-- Modelled from the spec: the `Post` struct that `src/main/repoPostsConnection.go`
uses is declared in a file that is not among the sources (the `Post` of
`src/repoPosts.go` has only `Key` and `Content`).  The fields are the ones the
enumerator reads and writes and the spec lists: the key, `createdAt` (a timestamp,
here an integer), the optional `parentPostKey`, `commandType`, `content`, and the
transient `replies` (`*[]Post`). -/
structure Post where
  Key : Option datastore.Key
  CreatedAt : Int
  ParentPostKey : Option datastore.Key
  CommandType : String
  Content : MarkdownDocument
  Replies : Option (List Post)

/-- The zero value of `Post`. -/
def Post.zero : Post :=
  { Key := none, CreatedAt := 0, ParentPostKey := none, CommandType := "",
    Content := { Source := "" }, Replies := none }

/-- Modelled from the spec: the constant `postType` of the query in `enumerate` is
declared in a file that is not among the sources; the spec names the record kind
`Post`, as does the literal in `ListPostsInChannel`. -/
def postType : String := "Post"

/-- The records the repository keeps in the datastore. -/
inductive Entity where
  | ChannelSlug (v : ChannelSlug)
  | ChannelContent (v : ChannelContent)
  | Post (v : Post)

namespace datastore

/-- The state of the datastore as a request reaches it: the stored entities (newest
binding of a key first), the next integer identifier to hand out, and the fault
schedule: the n-th remote call from now fails with `e` when the n-th entry is
`some e`; calls beyond the schedule succeed. -/
structure Store where
  entities : List (Key × Entity)
  nextID : Int
  faults : List (Option Error)

/-- The fault of the next remote call, and the store once that call is made. -/
def Store.call (s : Store) : Option Error × Store :=
  match s.faults with
  | [] => (none, s)
  | f :: rest => (f, { s with faults := rest })

/-- The entity stored under a key. -/
def Store.lookup (s : Store) (k : Key) : Option Entity :=
  match s.entities.find? (fun kv => decide (kv.1 = k)) with
  | some kv => some kv.2
  | none => none

/-- Go's `datastore.Get(ctx, key, dst)`: the entity, or the error.  A key that is
not valid is refused before any call is made; an incomplete key names no entity. -/
def Get (s : Store) (key : Key) : Except Error Entity × Store :=
  if !key.valid then (.error ErrInvalidKey, s)
  else
    match s.call with
    | (some e, s1) => (.error e, s1)
    | (none, s1) =>
      if key.Incomplete then (.error ErrInvalidKey, s1)
      else
        match s1.lookup key with
        | some v => (.ok v, s1)
        | none => (.error ErrNoSuchEntity, s1)

/-- Go's `datastore.Put(ctx, key, src)`: the key the entity is stored under (the given
key completed with a fresh identifier when it is incomplete), or the error. -/
def Put (s : Store) (key : Key) (src : Entity) : Except Error Key × Store :=
  if !key.valid then (.error ErrInvalidKey, s)
  else
    match s.call with
    | (some e, s1) => (.error e, s1)
    | (none, s1) =>
      if key.Incomplete then
        let k := key.complete s1.nextID
        (.ok k, { s1 with entities := (k, src) :: s1.entities, nextID := s1.nextID + 1 })
      else
        (.ok key, { s1 with entities := (key, src) :: s1.entities })

/-- The key of a `Put` result as Go returns it: nil when the call failed. -/
def keyOf (r : Except Error Key) : Option Key :=
  match r with
  | .ok k => some k
  | .error _ => none

/-- The error of a result as Go returns it: nil when the call succeeded. -/
def errOf {α : Type} (r : Except Error α) : Option Error :=
  match r with
  | .ok _ => none
  | .error e => some e

/-- A query as built by `NewQuery(kind).Ancestor(key).Limit(n).Order(field)`. -/
structure Query where
  kind : String
  ancestor : Option Key
  limit : Int
  order : List String
  err : Option Error

/-- Go's `datastore.NewQuery`: no ancestor, no limit (-1), no order. -/
def NewQuery (kind : String) : Query :=
  { kind := kind, ancestor := none, limit := -1, order := [], err := none }

/-- Go's `(*Query).Ancestor`. -/
def Query.Ancestor (q : Query) (ancestor : Key) : Query :=
  { q with ancestor := some ancestor }

/-- Go's `(*Query).Limit`: a negative value means unlimited; a value outside the
32 bit range makes the query fail when it is run. -/
def Query.Limit (q : Query) (limit : Int) : Query :=
  if limit < -2147483648 ∨ 2147483647 < limit then { q with err := some ErrLimitOverflow }
  else { q with limit := limit }

/-- Go's `(*Query).Order`. -/
def Query.Order (q : Query) (fieldName : String) : Query :=
  { q with order := q.order ++ [fieldName] }

/-- What one call of `(*Iterator).Next` gives: a key and the post loaded, or an error.
The end of the results (`datastore.Done`) is the end of the list. -/
abbrev NextResult := Except Error (Key × Post)

/-- Whether the query selects the entity stored under a key: the kind is the
query's, and the key lies under the query's ancestor when it has one. -/
def Query.selects (q : Query) (k : Key) : Bool :=
  decide (k.kind = q.kind) &&
    (match q.ancestor with
     | some a => k.hasAncestor a
     | none => true)

/-- The posts a query selects, in result order: the entities of the kind under the
ancestor, newest `CreatedAt` first when ordered by `-CreatedAt` (store order
otherwise), cut at the limit when it is not negative. -/
def Query.rows (q : Query) (s : Store) : List (Key × Post) :=
  let matching := s.entities.filterMap (fun kv =>
    match kv.2 with
    | Entity.Post p => if q.selects kv.1 then some (kv.1, p) else none
    | _ => none)
  let ordered :=
    if q.order = ["-CreatedAt"] then
      matching.insertionSort (fun a b => b.2.CreatedAt ≤ a.2.CreatedAt)
    else matching
  if q.limit < 0 then ordered else ordered.take q.limit.toNat

/-- The results of the successive `Next` calls on rows: each call is a remote call and
may fail by the fault schedule; the iteration is followed up to its first error. -/
def nextResults : List (Key × Post) → List (Option Error) → List NextResult
  | _, some e :: _ => [.error e]
  | [], _ => []
  | row :: rest, [] => .ok row :: nextResults rest []
  | row :: rest, none :: faults => .ok row :: nextResults rest faults

/-- Go's `q.Run(ctx)` followed up to the first error or to `Done`: the results of
the successive `Next` calls. -/
def Query.Run (q : Query) (s : Store) : List NextResult :=
  match q.err with
  | some e => [.error e]
  | none => nextResults (q.rows s) s.faults

end datastore

namespace datastore

/-- The fault schedule left once the successive `Next` calls on rows were made, up to
the first error or to `Done` (the call that reports `Done` is a call too). -/
def faultsAfter : List (Key × Post) → List (Option Error) → List (Option Error)
  | _, some _ :: faults => faults
  | [], [] => []
  | [], none :: faults => faults
  | _ :: _, [] => []
  | _ :: rest, none :: faults => faultsAfter rest faults

/-- The store once the iteration of a query was followed to its end. -/
def Query.finish (q : Query) (s : Store) : Store :=
  match q.err with
  | some _ => s
  | none => { s with faults := faultsAfter (q.rows s) s.faults }

end datastore

open datastore

/-- Modelled from the spec: `OrgRepo` is declared in a file that is not among the
sources.  The repository uses only its `RootKey()`, the organization root under which
all keys are anchored. -/
structure OrgRepo where
  RootKey : Option Key

/-- ChannelsRepo lets you query the channels repository.  The request context `ctx`
stands for the datastore it reaches. -/
structure ChannelsRepo where
  ctx : Store
  orgRepo : OrgRepo

/-- NewChannelsRepo makes a new channels repository with the given org name. -/
def NewChannelsRepo (ctx : Store) (orgRepo : OrgRepo) : ChannelsRepo :=
  { ctx := ctx, orgRepo := orgRepo }

/-- The method `channelSlugKeyFor` of `src/repoPosts.go`. -/
def ChannelsRepo.channelSlugKeyFor (repo : ChannelsRepo) (slug : String) : Key :=
  NewKey "ChannelSlug" slug 0 repo.orgRepo.RootKey

/-- The method `channelContentKeyFor` of `src/repoPosts.go`: the content key of the
slug record, nil on any error of the lookup; with the store after the lookup. -/
def ChannelsRepo.channelContentKeyFor (repo : ChannelsRepo) (slug : String) :
    Option Key × Store :=
  let channelSlugKey := repo.channelSlugKeyFor slug
  match Get repo.ctx channelSlugKey with
  | (.error _, s1) => (none, s1)
  | (.ok (Entity.ChannelSlug channelSlug), s1) => (channelSlug.ContentKey, s1)
  | (.ok _, s1) => (none, s1)

/-- CreateChannel creates a new channel.  The error of the first `Put` is assigned to
`err` and then overwritten by the error of the second `Put`. -/
def ChannelsRepo.CreateChannel (repo : ChannelsRepo) (slug : String) :
    (ChannelContent × Option Error) × Store :=
  let channelSlugKey := repo.channelSlugKeyFor slug
  let channelContentKey := NewIncompleteKey "ChannelContent" repo.orgRepo.RootKey
  let channelContent : ChannelContent := { Key := none, Slug := slug, Description := "" }
  match Put repo.ctx channelContentKey (Entity.ChannelContent channelContent) with
  | (r1, s1) =>
    let channelContentKey := keyOf r1
    let channelSlug : ChannelSlug := { ContentKey := channelContentKey }
    match Put s1 channelSlugKey (Entity.ChannelSlug channelSlug) with
    | (r2, s2) =>
      let err := errOf r2
      (({ channelContent with Key := channelContentKey }, err), s2)

/-- GetChannelInfo loads the base info for a channel. -/
def ChannelsRepo.GetChannelInfo (repo : ChannelsRepo) (slug : String) :
    (Option ChannelContent × Option Error) × Store :=
  match repo.channelContentKeyFor slug with
  | (none, s1) => ((none, some (errors.New ("No channel with slug: " ++ slug))), s1)
  | (some channelContentKey, s1) =>
    match Get s1 channelContentKey with
    | (.ok (Entity.ChannelContent v), s2) =>
      ((some { v with Key := some channelContentKey }, none), s2)
    | (.ok _, s2) =>
      ((some { Key := some channelContentKey, Slug := "", Description := "" },
        some ErrFieldMismatch), s2)
    | (.error e, s2) =>
      ((some { Key := some channelContentKey, Slug := "", Description := "" }, some e), s2)

/-- CreatePost creates a new post (`src/repoPosts.go`: a post of the markdown source,
every other field at its zero value). -/
def ChannelsRepo.CreatePost (repo : ChannelsRepo) (channelSlug markdownSource : String) :
    (Option Post × Option Error) × Store :=
  match repo.channelContentKeyFor channelSlug with
  | (none, s1) => ((none, some (errors.New ("No channel with slug: " ++ channelSlug))), s1)
  | (some channelContentKey, s1) =>
    let postKey := NewIncompleteKey "Post" (some channelContentKey)
    let markdownDocument := NewMarkdownDocument markdownSource
    let post : Post := { Post.zero with Content := markdownDocument }
    match Put s1 postKey (Entity.Post post) with
    | (.error err, s2) => ((none, some err), s2)
    | (.ok postKey, s2) => ((some { post with Key := some postKey }, none), s2)

/-- The loop of `ListPostsInChannel` over the results of the successive `Next` calls:
each post read is appended with its key; an error gives up the posts read so far. -/
def listPostsLoop : List NextResult → List Post → List Post × Option Error
  | [], posts => (posts, none)
  | .error err :: _, _ => ([], some err)
  | .ok (key, currentPost) :: rest, posts =>
    listPostsLoop rest (posts ++ [{ currentPost with Key := some key }])

/-- ListPostsInChannel lists all post in a channel of a certain slug. -/
def ChannelsRepo.ListPostsInChannel (repo : ChannelsRepo) (channelSlug : String) :
    (List Post × Option Error) × Store :=
  match repo.channelContentKeyFor channelSlug with
  | (none, s1) => (([], some (errors.New ("No channel with slug: " ++ channelSlug))), s1)
  | (some channelContentKey, s1) =>
    let q := ((NewQuery "Post").Ancestor channelContentKey).Limit 100
    (listPostsLoop (q.Run s1) [], q.finish s1)

/-- The options of a posts connection. -/
structure PostsConnectionOptions where
  channelSlug : String
  includeReplies : Bool
  maxCount : Int

/-- A posts connection: the repository and the options. -/
structure PostsConnection where
  repo : ChannelsRepo
  options : PostsConnectionOptions

/-- What `enumerate` uses whose code is not among the sources, taken as parameters:
the library's `(*datastore.Key).Encode`; the repository's
`readPostContentFromStorageIfNeeded(ctx, &currentPost)`, which receives the post by
pointer and is taken as any function from the post before the call to the post after
it; and the two constants of the Go runtime that `make([]Post, 0, limit)` depends on,
the size of a `Post` in bytes and `maxAlloc`, the largest allocation in bytes. -/
structure Externals where
  Encode : Key → String
  readPostContentFromStorageIfNeeded : Post → Post
  postSize : Nat
  maxAlloc : Nat

/-- Whether the runtime's `makeslice` panics for a `[]Post` of the capacity `cap` (and
length 0): the capacity is negative, or the memory asked for, the size of a `Post`
times the capacity, is more than `maxAlloc`. -/
def makeslicePanics (x : Externals) (cap : Int) : Bool :=
  decide (cap < 0) || decide ((x.maxAlloc : Int) < (x.postSize : Int) * cap)

/-- The local variables of the scanning loop of `enumerate`: the buffer `posts`, the
map `replies` (a missing entry reads as the empty slice), and the posts `usePost` was
called with so far. -/
structure ScanState where
  posts : List Post
  replies : String → List Post
  used : List Post

/-- The map `m` with the entry of `k` set to `v`. -/
def setEntry (m : String → List Post) (k : String) (v : List Post) : String → List Post :=
  fun s => if s = k then v else m s

/-- The value of `currentPost` once a row was read: the loaded post with its key
assigned and its content read (lines 50 and 52). -/
def scannedPost (x : Externals) (row : Key × Post) : Post :=
  x.readPostContentFromStorageIfNeeded { row.2 with Key := some row.1 }

/-- The body of the scanning loop for one post (lines 54 to 62). -/
def scanStep (x : Externals) (includeReplies : Bool) (st : ScanState) (currentPost : Post) :
    ScanState :=
  if includeReplies then
    match currentPost.ParentPostKey with
    | some parentPostKey =>
      let k := x.Encode parentPostKey
      { st with replies := setEntry st.replies k (st.replies k ++ [currentPost]) }
    | none => { st with posts := st.posts ++ [currentPost] }
  else
    { st with used := st.used ++ [currentPost] }

/-- The scanning loop (lines 40 to 63): the state when the iterator is done, or the
state and the error when a `Next` call fails. -/
def scanLoop (x : Externals) (includeReplies : Bool) :
    List NextResult → ScanState → ScanState × Option Error
  | [], st => (st, none)
  | .error err :: _, st => (st, some err)
  | .ok row :: rest, st =>
    scanLoop x includeReplies rest (scanStep x includeReplies st (scannedPost x row))

/-- The post with the slice of replies attached (line 74: `post.Replies = &postReplies`). -/
def Post.withReplies (p : Post) (replies : List Post) : Post :=
  { p with Replies := some replies }

/-- The emitting loop (lines 69 to 77): the posts `usePost` is called with, and how the
loop ends.  The reversal is in place: the slice read from the map shares its array with
the map entry, which reads reversed afterwards.  `post.Key.Encode()` on a nil key is a
nil pointer dereference. -/
def emitLoop (x : Externals) :
    (String → List Post) → List Post → List Post × GoResult (Option Error)
  | _, [] => ([], .returned none)
  | replies, post :: rest =>
    match post.Key with
    | none => ([], .panicked "invalid memory address or nil pointer dereference")
    | some key =>
      let postReplies := (replies (x.Encode key)).reverse
      let r := emitLoop x (setEntry replies (x.Encode key) postReplies) rest
      (post.withReplies postReplies :: r.1, r.2)

/-- The method `enumerate` from line 39 on, over the results of the successive `Next`
calls of the iterator: the posts `usePost` is called with, in call order, and how the
call ends. -/
def PostsConnection.enumerateFrom (x : Externals) (includeReplies : Bool)
    (it : List NextResult) : List Post × GoResult (Option Error) :=
  match scanLoop x includeReplies it { posts := [], replies := fun _ => [], used := [] } with
  | (st, some err) => (st.used, .returned (some err))
  | (st, none) =>
    if !includeReplies then (st.used, .returned none)
    else
      let r := emitLoop x st.replies st.posts
      (st.used ++ r.1, r.2)

/-- The method `enumerate` of `src/main/repoPostsConnection.go`: the posts `usePost`
is called with, in call order, and how the call ends.  `make([]Post, 0, limit)` panics
when `makeslice` refuses the capacity.  For a capacity that `makeslice` accepts the
embedding goes on with the scan: that the runtime may then find no memory for a large
buffer and stop the process (a fatal error, which is no panic and returns nothing) is
outside the embedding. -/
def PostsConnection.enumerate (x : Externals) (c : PostsConnection) :
    List Post × GoResult (Option Error) :=
  let channelSlug := c.options.channelSlug
  let includeReplies := c.options.includeReplies
  let limit := c.options.maxCount
  match c.repo.channelContentKeyFor channelSlug with
  | (none, _) => ([], .returned (some (errors.New ("No channel with slug: " ++ channelSlug))))
  | (some channelContentKey, s1) =>
    let q := (((NewQuery postType).Ancestor channelContentKey).Limit limit).Order "-CreatedAt"
    if makeslicePanics x limit then ([], .panicked "makeslice: cap out of range")
    else PostsConnection.enumerateFrom x includeReplies (q.Run s1)

/-- All gets all the posts as a slice: the posts as they were when `usePost` was called
with them, and the error of `enumerate`. -/
def PostsConnection.All (x : Externals) (c : PostsConnection) :
    GoResult (List Post × Option Error) :=
  match c.enumerate x with
  | (posts, .returned err) => .returned (posts, err)
  | (_, .panicked reason) => .panicked reason

/-! ## Vocabulary of the claims -/

/-- The results of the successive `Next` calls on the iterator of the query that
`enumerate` runs; `none` when the channel slug does not resolve. -/
def PostsConnection.nextResults (c : PostsConnection) : Option (List NextResult) :=
  match c.repo.channelContentKeyFor c.options.channelSlug with
  | (none, _) => none
  | (some channelContentKey, s1) =>
    some (Query.Run ((((NewQuery postType).Ancestor channelContentKey).Limit
      c.options.maxCount).Order "-CreatedAt") s1)

/-- The scanned posts: the values of `currentPost` for the rows read before the
iterator is done or fails, in scan order. -/
def scannedPosts (x : Externals) : List NextResult → List Post
  | [] => []
  | .error _ :: _ => []
  | .ok row :: rest => scannedPost x row :: scannedPosts x rest

/-- The first error of the successive `Next` calls, if any. -/
def scanError : List NextResult → Option Error
  | [] => none
  | .error err :: _ => some err
  | .ok _ :: rest => scanError rest

/-- The scanned window of a connection: the posts its scan reads (none when the
channel does not resolve). -/
def PostsConnection.scanned (x : Externals) (c : PostsConnection) : List Post :=
  match c.nextResults with
  | some it => scannedPosts x it
  | none => []

/-- Whether the channel resolves and the scan of the connection reaches `Done` without
an error. -/
def PostsConnection.scanCompletes (c : PostsConnection) : Bool :=
  match c.nextResults with
  | some it => (scanError it).isNone
  | none => false

/-- A root post has no parent post key. -/
def Post.isRoot (p : Post) : Bool := p.ParentPostKey.isNone

/-- Whether the post is a reply to the post of key `key`. -/
def Post.isReplyTo (key : datastore.Key) (p : Post) : Bool := decide (p.ParentPostKey = some key)

/-- Whether the parent post key of the post encodes to the string `s`. -/
def Post.parentEncodesTo (x : Externals) (s : String) (p : Post) : Bool :=
  match p.ParentPostKey with
  | some parentPostKey => decide (x.Encode parentPostKey = s)
  | none => false

/-- The keys that `enumerate` encodes while it groups and emits the posts: the keys of
the posts and their parent post keys. -/
def encodedKeys (posts : List Post) : List Key :=
  posts.filterMap (fun p => p.Key) ++ posts.filterMap (fun p => p.ParentPostKey)

/-- The encoding tells the given keys apart. -/
def EncodeInjectiveOn (x : Externals) (keys : List Key) : Prop :=
  ∀ a ∈ keys, ∀ b ∈ keys, x.Encode a = x.Encode b → a = b

instance (x : Externals) (keys : List Key) : Decidable (EncodeInjectiveOn x keys) := by
  unfold EncodeInjectiveOn
  infer_instance

/-- Newest first: the order of a scan by `-CreatedAt`. -/
def Descending (posts : List Post) : Prop :=
  posts.Pairwise (fun a b => b.CreatedAt ≤ a.CreatedAt)

/-- Oldest first. -/
def Ascending (posts : List Post) : Prop :=
  posts.Pairwise (fun a b => a.CreatedAt ≤ b.CreatedAt)

instance (posts : List Post) : Decidable (Descending posts) := by
  unfold Descending
  infer_instance

instance (posts : List Post) : Decidable (Ascending posts) := by
  unfold Ascending
  infer_instance

/-- Distinct root posts carry distinct keys. -/
def RootKeysDistinct (posts : List Post) : Prop :=
  ((posts.filter Post.isRoot).map (fun p => p.Key)).Nodup

instance (posts : List Post) : Decidable (RootKeysDistinct posts) := by
  unfold RootKeysDistinct
  infer_instance

/-- Every root post carries a key. -/
def RootsKeyed (posts : List Post) : Prop :=
  ∀ p ∈ posts, p.isRoot = true → p.Key.isSome = true

instance (posts : List Post) : Decidable (RootsKeyed posts) := by
  unfold RootsKeyed
  infer_instance

/-! ## The scenario of the spec: channel "news" -/

namespace Scenario

/-- An encoding of keys for the scenario: the elements of the path, written out. -/
def encode (k : Key) : String :=
  String.join (k.path.map (fun e => "/" ++ e.kind ++ ":" ++ e.stringID ++ "#" ++ toString e.intID))

/-- The scenario's externals: the encoding above, content that needs no reading, and
the constants of a 64 bit runtime: 80 bytes for the six fields of a `Post`, and
`maxAlloc` of 2^48 bytes. -/
def externals : Externals :=
  { Encode := encode, readPostContentFromStorageIfNeeded := fun p => p,
    postSize := 80, maxAlloc := 281474976710656 }

def orgRoot : Key := NewKey "Org" "acme" 0 none

def orgRepo : OrgRepo := { RootKey := some orgRoot }

def newsKey : Key := NewKey "ChannelContent" "" 1 (some orgRoot)

def keyA : Key := NewKey "Post" "" 11 (some newsKey)

def keyB : Key := NewKey "Post" "" 12 (some newsKey)

def keyC : Key := NewKey "Post" "" 13 (some newsKey)

def keyD : Key := NewKey "Post" "" 14 (some newsKey)

/-- A stored post: its creation time and its parent post key. -/
def stored (createdAt : Int) (parent : Option Key) : Post :=
  { Post.zero with CreatedAt := createdAt, ParentPostKey := parent }

def storedA : Post := stored 3 none

def storedB : Post := stored 1 none

def storedC : Post := stored 4 (some keyA)

def storedD : Post := stored 2 (some keyA)

/-- The posts as the scan reads them: with their keys. -/
def postA : Post := { storedA with Key := some keyA }

def postB : Post := { storedB with Key := some keyB }

def postC : Post := { storedC with Key := some keyC }

def postD : Post := { storedD with Key := some keyD }

/-- The datastore of the scenario: channel "news" with root posts A (t=3), B (t=1) and
replies C (parent A, t=4), D (parent A, t=2); no call fails. -/
def store : Store :=
  { entities :=
      [ (keyD, Entity.Post storedD),
        (keyC, Entity.Post storedC),
        (keyB, Entity.Post storedB),
        (keyA, Entity.Post storedA),
        (NewKey "ChannelSlug" "news" 0 (some orgRoot),
          Entity.ChannelSlug { ContentKey := some newsKey }),
        (newsKey, Entity.ChannelContent { Key := none, Slug := "news", Description := "" }) ],
    nextID := 15,
    faults := [] }

/-- A connection to channel "news". -/
def connection (includeReplies : Bool) (maxCount : Int) : PostsConnection :=
  { repo := { ctx := store, orgRepo := orgRepo },
    options := { channelSlug := "news", includeReplies := includeReplies, maxCount := maxCount } }

/-- The error of a remote call that does not get through. -/
def timeout : Error := errors.New "datastore: call timed out"

/-- The datastore of the scenario when the fourth remote call from now fails: for
`enumerate` these are the lookup of the slug and two `Next` calls that succeed, then a
`Next` call that fails. -/
def storeFailingFourthCall : Store :=
  { store with faults := [none, none, none, some timeout] }

/-- A connection to channel "news" on the datastore whose fourth call fails. -/
def failingConnection (includeReplies : Bool) (maxCount : Int) : PostsConnection :=
  { repo := { ctx := storeFailingFourthCall, orgRepo := orgRepo },
    options := { channelSlug := "news", includeReplies := includeReplies, maxCount := maxCount } }

/-- An empty datastore whose first remote call from now fails and whose second
succeeds. -/
def emptyStoreFailingFirstCall : Store :=
  { entities := [], nextID := 1, faults := [some timeout, none] }

/-- An empty datastore where no call fails. -/
def emptyStore : Store :=
  { entities := [], nextID := 1, faults := [] }

end Scenario

namespace Scenario

def keyE : Key := NewKey "Post" "" 15 (some newsKey)

/-- A reply to reply C, created last (t=5). -/
def storedE : Post := stored 5 (some keyC)

def postE : Post := { storedE with Key := some keyE }

/-- The datastore of the scenario with the reply E to reply C added. -/
def nestedStore : Store :=
  { store with entities := (keyE, Entity.Post storedE) :: store.entities, nextID := 16 }

/-- A connection to channel "news" on the datastore that holds the reply to a reply. -/
def nestedConnection (includeReplies : Bool) (maxCount : Int) : PostsConnection :=
  { repo := { ctx := nestedStore, orgRepo := orgRepo },
    options := { channelSlug := "news", includeReplies := includeReplies, maxCount := maxCount } }

end Scenario

/-! ## Sequences of repository operations -/

/-- A call of one of the four operations of the channels repository, with its
arguments. -/
inductive RepoOp where
  | CreateChannel (slug : String)
  | GetChannelInfo (slug : String)
  | CreatePost (channelSlug markdownSource : String)
  | ListPostsInChannel (channelSlug : String)
deriving DecidableEq, Repr

/-- The datastore after the operation was called on a repository of the organization. -/
def RepoOp.run (orgRepo : OrgRepo) (s : Store) : RepoOp → Store
  | .CreateChannel slug => (ChannelsRepo.CreateChannel { ctx := s, orgRepo := orgRepo } slug).2
  | .GetChannelInfo slug => (ChannelsRepo.GetChannelInfo { ctx := s, orgRepo := orgRepo } slug).2
  | .CreatePost channelSlug markdownSource =>
    (ChannelsRepo.CreatePost { ctx := s, orgRepo := orgRepo } channelSlug markdownSource).2
  | .ListPostsInChannel channelSlug =>
    (ChannelsRepo.ListPostsInChannel { ctx := s, orgRepo := orgRepo } channelSlug).2

/-- The datastore after a sequence of operations, called one after the other. -/
def runOps (orgRepo : OrgRepo) (s : Store) (ops : List RepoOp) : Store :=
  ops.foldl (RepoOp.run orgRepo) s

/-- Whether the operation is `CreateChannel` for the slug. -/
def RepoOp.createsChannel (slug : String) : RepoOp → Bool
  | .CreateChannel s => decide (s = slug)
  | _ => false

/-! ## Lemmas on the loops of `enumerate` -/

theorem scanLoop_true_eq (x : Externals) (it : List NextResult) (st : ScanState) :
    scanLoop x true it st =
      ({ posts := st.posts ++ (scannedPosts x it).filter Post.isRoot,
         replies := fun s => st.replies s ++ (scannedPosts x it).filter (Post.parentEncodesTo x s),
         used := st.used }, scanError it) := by
  induction it generalizing st with
  | nil => simp [scanLoop, scannedPosts, scanError]
  | cons r rest ih =>
    cases r with
    | error err => simp [scanLoop, scannedPosts, scanError]
    | ok row =>
      rw [scanLoop, ih]
      cases hp : (scannedPost x row).ParentPostKey with
      | none =>
        simp [scanStep, scannedPosts, scanError, hp, Post.isRoot, Post.parentEncodesTo]
      | some parent =>
        simp only [scanStep, scannedPosts, scanError, hp, Post.isRoot, if_true,
          List.filter_cons, Option.isNone_some, Bool.false_eq_true, if_false,
          Post.parentEncodesTo, Prod.mk.injEq, and_true]
        congr 1
        funext s
        by_cases hs : s = x.Encode parent
        · subst hs
          simp [setEntry]
        · have hs2 : ¬ x.Encode parent = s := fun h => hs h.symm
          simp [setEntry, hs, hs2]

theorem scanLoop_false_eq (x : Externals) (it : List NextResult) (st : ScanState) :
    scanLoop x false it st =
      ({ st with used := st.used ++ scannedPosts x it }, scanError it) := by
  induction it generalizing st with
  | nil => simp [scanLoop, scannedPosts, scanError]
  | cons r rest ih =>
    cases r with
    | error err => simp [scanLoop, scannedPosts, scanError]
    | ok row =>
      rw [scanLoop, ih]
      simp [scanStep, scannedPosts, scanError]

theorem enumerateFrom_false (x : Externals) (it : List NextResult) :
    PostsConnection.enumerateFrom x false it = (scannedPosts x it, .returned (scanError it)) := by
  unfold PostsConnection.enumerateFrom
  rw [scanLoop_false_eq]
  cases h : scanError it <;> simp

theorem enumerateFrom_true_error (x : Externals) (it : List NextResult) (err : Error)
    (h : scanError it = some err) :
    PostsConnection.enumerateFrom x true it = ([], .returned (some err)) := by
  unfold PostsConnection.enumerateFrom
  rw [scanLoop_true_eq, h]

theorem enumerateFrom_true_done (x : Externals) (it : List NextResult)
    (h : scanError it = none) :
    PostsConnection.enumerateFrom x true it =
      emitLoop x (fun s => (scannedPosts x it).filter (Post.parentEncodesTo x s))
        ((scannedPosts x it).filter Post.isRoot) := by
  unfold PostsConnection.enumerateFrom
  rw [scanLoop_true_eq, h]
  simp

theorem enumerate_eq (x : Externals) (c : PostsConnection) :
    c.enumerate x =
      match c.nextResults with
      | none => ([], .returned (some (errors.New ("No channel with slug: " ++ c.options.channelSlug))))
      | some it =>
        if makeslicePanics x c.options.maxCount then
          ([], .panicked "makeslice: cap out of range")
        else PostsConnection.enumerateFrom x c.options.includeReplies it := by
  unfold PostsConnection.enumerate PostsConnection.nextResults
  rcases h : c.repo.channelContentKeyFor c.options.channelSlug with ⟨k, s1⟩
  cases k <;> simp [h]

theorem emitLoop_keyed (x : Externals) (m : String → List Post) (roots : List Post)
    (hkeyed : ∀ p ∈ roots, p.Key.isSome = true) :
    (emitLoop x m roots).2 = .returned none ∧
      List.Forall₂ (fun e p => ∃ replies, e = p.withReplies replies) (emitLoop x m roots).1 roots := by
  induction roots generalizing m with
  | nil => simp [emitLoop]
  | cons p rest ih =>
    have hp := hkeyed p (List.mem_cons_self _ _)
    obtain ⟨k, hk⟩ := Option.isSome_iff_exists.mp hp
    have hrest := ih (setEntry m (x.Encode k) (m (x.Encode k)).reverse)
      (fun q hq => hkeyed q (List.mem_cons_of_mem _ hq))
    simp only [emitLoop, hk]
    exact ⟨hrest.1, List.Forall₂.cons ⟨_, rfl⟩ hrest.2⟩

theorem emitLoop_perm (x : Externals) (m m0 : String → List Post) (roots : List Post)
    (hperm : ∀ s, (m s).Perm (m0 s)) :
    ∀ R ∈ (emitLoop x m roots).1, ∃ p ∈ roots, ∃ k replies,
      p.Key = some k ∧ R = p.withReplies replies ∧ replies.Perm (m0 (x.Encode k)) := by
  induction roots generalizing m with
  | nil => simp [emitLoop]
  | cons p rest ih =>
    intro R hR
    cases hk : p.Key with
    | none => simp [emitLoop, hk] at hR
    | some k =>
      simp only [emitLoop, hk, List.mem_cons] at hR
      rcases hR with hR | hR
      · exact ⟨p, List.mem_cons_self _ _, k, _, hk, hR,
          (List.reverse_perm _).trans (hperm _)⟩
      · have hperm2 : ∀ s, (setEntry m (x.Encode k) (m (x.Encode k)).reverse s).Perm (m0 s) := by
          intro s
          by_cases hs : s = x.Encode k
          · subst hs
            simpa [setEntry] using (List.reverse_perm _).trans (hperm _)
          · simpa [setEntry, hs] using hperm s
        obtain ⟨q, hq, k2, rs, h1, h2, h3⟩ := ih _ hperm2 R hR
        exact ⟨q, List.mem_cons_of_mem _ hq, k2, rs, h1, h2, h3⟩

theorem emitLoop_distinct (x : Externals) (m m0 : String → List Post) (roots : List Post)
    (hagree : ∀ p ∈ roots, ∀ k, p.Key = some k → m (x.Encode k) = m0 (x.Encode k))
    (hdist : roots.Pairwise
      (fun p q => ∀ a b, p.Key = some a → q.Key = some b → x.Encode a ≠ x.Encode b)) :
    ∀ R ∈ (emitLoop x m roots).1, ∃ p ∈ roots, ∃ k,
      p.Key = some k ∧ R = p.withReplies (m0 (x.Encode k)).reverse := by
  induction roots generalizing m with
  | nil => simp [emitLoop]
  | cons p rest ih =>
    intro R hR
    cases hk : p.Key with
    | none => simp [emitLoop, hk] at hR
    | some k =>
      simp only [emitLoop, hk, List.mem_cons] at hR
      rw [List.pairwise_cons] at hdist
      rcases hR with hR | hR
      · refine ⟨p, List.mem_cons_self _ _, k, hk, ?_⟩
        rw [hR, hagree p (List.mem_cons_self _ _) k hk]
      · have hagree2 : ∀ q ∈ rest, ∀ k2, q.Key = some k2 →
            setEntry m (x.Encode k) (m (x.Encode k)).reverse (x.Encode k2) = m0 (x.Encode k2) := by
          intro q hq k2 hk2
          have hne : x.Encode k2 ≠ x.Encode k := fun h => hdist.1 q hq k k2 hk hk2 h.symm
          simp only [setEntry, hne, if_false]
          exact hagree q (List.mem_cons_of_mem _ hq) k2 hk2
        obtain ⟨q, hq, k2, h1, h2⟩ := ih _ hagree2 hdist.2 R hR
        exact ⟨q, List.mem_cons_of_mem _ hq, k2, h1, h2⟩

theorem scanned_of_nextResults (x : Externals) (c : PostsConnection) (it : List NextResult)
    (h : c.nextResults = some it) : c.scanned x = scannedPosts x it := by
  simp [PostsConnection.scanned, h]

theorem makeslicePanics_eq_false (x : Externals) (cap : Int) (hcount : 0 ≤ cap)
    (hcap : (x.postSize : Int) * cap ≤ x.maxAlloc) : makeslicePanics x cap = false := by
  unfold makeslicePanics
  simp [not_lt.mpr hcount, not_lt.mpr hcap]

theorem enumerate_true_cases (x : Externals) (c : PostsConnection)
    (hincl : c.options.includeReplies = true) :
    (c.enumerate x).1 = [] ∨
      c.enumerate x =
        emitLoop x (fun s => (c.scanned x).filter (Post.parentEncodesTo x s))
          ((c.scanned x).filter Post.isRoot) := by
  rw [enumerate_eq]
  cases hrun : c.nextResults with
  | none => left; rfl
  | some it =>
    rw [scanned_of_nextResults x c it hrun]
    by_cases hneg : makeslicePanics x c.options.maxCount = true
    · left; simp [hneg]
    · cases herr : scanError it with
      | some err => left; simp [hneg, hincl, enumerateFrom_true_error x it err herr]
      | none => right; simp [hneg, hincl, enumerateFrom_true_done x it herr]

theorem enumerate_true_completes (x : Externals) (c : PostsConnection)
    (hincl : c.options.includeReplies = true) (hcount : 0 ≤ c.options.maxCount)
    (hcap : (x.postSize : Int) * c.options.maxCount ≤ x.maxAlloc)
    (hdone : c.scanCompletes = true) :
    c.enumerate x =
      emitLoop x (fun s => (c.scanned x).filter (Post.parentEncodesTo x s))
        ((c.scanned x).filter Post.isRoot) := by
  rw [enumerate_eq]
  unfold PostsConnection.scanCompletes at hdone
  cases hrun : c.nextResults with
  | none => simp [hrun] at hdone
  | some it =>
    rw [scanned_of_nextResults x c it hrun]
    have hneg := makeslicePanics_eq_false x _ hcount hcap
    have herr : scanError it = none := by simpa [hrun] using hdone
    simp [hneg, hincl, enumerateFrom_true_done x it herr]

theorem enumerate_false_completes (x : Externals) (c : PostsConnection)
    (hincl : c.options.includeReplies = false) (hcount : 0 ≤ c.options.maxCount)
    (hcap : (x.postSize : Int) * c.options.maxCount ≤ x.maxAlloc)
    (hdone : c.scanCompletes = true) :
    c.enumerate x = (c.scanned x, .returned none) := by
  rw [enumerate_eq]
  unfold PostsConnection.scanCompletes at hdone
  cases hrun : c.nextResults with
  | none => simp [hrun] at hdone
  | some it =>
    rw [scanned_of_nextResults x c it hrun]
    have hneg := makeslicePanics_eq_false x _ hcount hcap
    have herr : scanError it = none := by simpa [hrun] using hdone
    simp [hneg, hincl, enumerateFrom_false, herr]

theorem key_mem_encodedKeys (posts : List Post) (p : Post) (k : Key) (hp : p ∈ posts)
    (hk : p.Key = some k) : k ∈ encodedKeys posts := by
  unfold encodedKeys
  exact List.mem_append_left _ (List.mem_filterMap.mpr ⟨p, hp, hk⟩)

theorem parent_mem_encodedKeys (posts : List Post) (p : Post) (k : Key) (hp : p ∈ posts)
    (hk : p.ParentPostKey = some k) : k ∈ encodedKeys posts := by
  unfold encodedKeys
  exact List.mem_append_right _ (List.mem_filterMap.mpr ⟨p, hp, hk⟩)

theorem filter_parentEncodesTo_eq (x : Externals) (posts : List Post) (k : Key)
    (hinj : EncodeInjectiveOn x (encodedKeys posts)) (hk : k ∈ encodedKeys posts) :
    posts.filter (Post.parentEncodesTo x (x.Encode k)) = posts.filter (Post.isReplyTo k) := by
  apply List.filter_congr
  intro q hq
  cases hpar : q.ParentPostKey with
  | none => simp [Post.parentEncodesTo, Post.isReplyTo, hpar]
  | some pk =>
    have hpk := parent_mem_encodedKeys posts q pk hq hpar
    simp only [Post.parentEncodesTo, Post.isReplyTo, hpar, Option.some.injEq]
    by_cases h : pk = k
    · simp [h]
    · have h2 : ¬ x.Encode pk = x.Encode k := fun he => h (hinj pk hpk k hk he)
      simp [h, h2]

theorem roots_encode_distinct (x : Externals) (posts : List Post)
    (hinj : EncodeInjectiveOn x (encodedKeys posts)) (hdistinct : RootKeysDistinct posts) :
    (posts.filter Post.isRoot).Pairwise
      (fun p q => ∀ a b, p.Key = some a → q.Key = some b → x.Encode a ≠ x.Encode b) := by
  unfold RootKeysDistinct at hdistinct
  rw [List.Nodup, List.pairwise_map] at hdistinct
  refine hdistinct.imp_of_mem ?_
  intro p q hp hq hne a b ha hb he
  have hpm := (List.mem_filter.mp hp).1
  have hqm := (List.mem_filter.mp hq).1
  have hab := hinj a (key_mem_encodedKeys posts p a hpm ha) b (key_mem_encodedKeys posts q b hqm hb) he
  exact hne (by rw [ha, hb, hab])

theorem enumerate_true_roots (x : Externals) (c : PostsConnection)
    (hincl : c.options.includeReplies = true) (hcount : 0 ≤ c.options.maxCount)
    (hcap : (x.postSize : Int) * c.options.maxCount ≤ x.maxAlloc)
    (hdone : c.scanCompletes = true) (hkeyed : RootsKeyed (c.scanned x)) :
    List.Forall₂ (fun e p => ∃ replies, e = p.withReplies replies)
        (c.enumerate x).1 ((c.scanned x).filter Post.isRoot) ∧
      (∀ e ∈ (c.enumerate x).1, e.ParentPostKey = none) ∧
      (c.enumerate x).2 = .returned none := by
  rw [enumerate_true_completes x c hincl hcount hcap hdone]
  have hk : ∀ p ∈ (c.scanned x).filter Post.isRoot, p.Key.isSome = true := by
    intro p hp
    have hpm := List.mem_filter.mp hp
    exact hkeyed p hpm.1 hpm.2
  have h := emitLoop_keyed x
    (fun s => (c.scanned x).filter (Post.parentEncodesTo x s)) _ hk
  refine ⟨h.2, ?_, h.1⟩
  intro e he
  obtain ⟨p, hp, k, rs, _, hep, _⟩ :=
    emitLoop_perm x _ (fun s => (c.scanned x).filter (Post.parentEncodesTo x s)) _
      (fun _ => List.Perm.refl _) e he
  have hroot := (List.mem_filter.mp hp).2
  rw [hep]
  simpa [Post.isRoot, Post.withReplies] using hroot

theorem scannedPosts_ok_append_error (x : Externals) (rows : List (Key × Post)) (e : Error)
    (rest : List NextResult) :
    scannedPosts x (rows.map Except.ok ++ Except.error e :: rest) = rows.map (scannedPost x) ∧
      scanError (rows.map Except.ok ++ Except.error e :: rest) = some e := by
  induction rows with
  | nil => simp [scannedPosts, scanError]
  | cons row rows ih => simp [scannedPosts, scanError, ih]

/-! ## Lemmas on the repository -/

theorem call_entities (s : Store) : s.call.2.entities = s.entities := by
  unfold Store.call
  cases s.faults <;> rfl

theorem call_lookup (s : Store) (k : Key) : s.call.2.lookup k = s.lookup k := by
  unfold Store.lookup
  rw [call_entities]

theorem Get_entities (s : Store) (k : Key) : (Get s k).2.entities = s.entities := by
  unfold Get
  by_cases hv : k.valid = true
  · simp only [hv, Bool.not_true, Bool.false_eq_true, if_false]
    rcases hc : s.call with ⟨f, s1⟩
    have he : s1.entities = s.entities := by
      have := call_entities s
      rw [hc] at this
      exact this
    cases f with
    | some e => exact he
    | none =>
      simp only
      by_cases hi : k.Incomplete = true
      · simp only [hi, if_true]
        exact he
      · simp only [hi, if_false]
        cases s1.lookup k <;> exact he
  · simp [hv]

theorem Get_missing (s : Store) (k : Key) (hnone : s.lookup k = none) :
    ∃ e, (Get s k).1 = .error e := by
  unfold Get
  by_cases hv : k.valid = true
  · simp only [hv, Bool.not_true, Bool.false_eq_true, if_false]
    rcases hc : s.call with ⟨f, s1⟩
    have hl : s1.lookup k = none := by
      have := call_lookup s k
      rw [hc] at this
      rw [this]
      exact hnone
    cases f with
    | some e => exact ⟨e, rfl⟩
    | none =>
      simp only
      by_cases hi : k.Incomplete = true
      · simp only [hi, if_true]
        exact ⟨_, rfl⟩
      · simp only [hi, if_false, hl]
        exact ⟨_, rfl⟩
  · simp [hv]

theorem channelContentKeyFor_missing (repo : ChannelsRepo) (slug : String)
    (hnone : repo.ctx.lookup (repo.channelSlugKeyFor slug) = none) :
    (repo.channelContentKeyFor slug).1 = none ∧
      (repo.channelContentKeyFor slug).2.entities = repo.ctx.entities := by
  unfold ChannelsRepo.channelContentKeyFor
  obtain ⟨e, he⟩ := Get_missing repo.ctx _ hnone
  have hent := Get_entities repo.ctx (repo.channelSlugKeyFor slug)
  rcases hg : Get repo.ctx (repo.channelSlugKeyFor slug) with ⟨r, s1⟩
  rw [hg] at he hent
  simp only at he hent
  subst he
  simp only [hg]
  exact ⟨trivial, hent⟩

theorem Put_ok_complete (s s2 : Store) (key k : Key) (src : Entity)
    (hcomplete : key.Incomplete = false) (hput : Put s key src = (.ok k, s2)) :
    k = key ∧ s2.lookup key = some src := by
  unfold Put at hput
  by_cases hv : key.valid = true
  · simp only [hv, Bool.not_true, Bool.false_eq_true, if_false, hcomplete] at hput
    rcases hc : s.call with ⟨f, s1⟩
    rw [hc] at hput
    cases f with
    | some e => simp at hput
    | none =>
      simp only [Prod.mk.injEq, Except.ok.injEq] at hput
      obtain ⟨h1, h2⟩ := hput
      subst h2
      refine ⟨h1.symm, ?_⟩
      simp [Store.lookup]
  · simp [hv] at hput

theorem Put_ok_kind (s s2 : Store) (key k : Key) (src : Entity)
    (hput : Put s key src = (.ok k, s2)) : k.kind = key.kind := by
  unfold Put at hput
  by_cases hv : key.valid = true
  · simp only [hv, Bool.not_true, Bool.false_eq_true, if_false] at hput
    rcases hc : s.call with ⟨f, s1⟩
    rw [hc] at hput
    cases f with
    | some e => simp at hput
    | none =>
      by_cases hi : key.Incomplete = true
      · simp only [hi, if_true, Prod.mk.injEq, Except.ok.injEq] at hput
        rw [← hput.1]
        unfold Key.complete Key.kind
        cases hl : key.path.getLast? with
        | none => simp [hl]
        | some e => simp
      · simp only [hi, Bool.false_eq_true, if_false, Prod.mk.injEq, Except.ok.injEq] at hput
        rw [← hput.1]
  · simp [hv] at hput

theorem Put_ok_lookup (s s2 : Store) (key k : Key) (src : Entity)
    (hput : Put s key src = (.ok k, s2)) :
    s2.lookup k = some src ∧ ∀ k2, k2 ≠ k → s2.lookup k2 = s.lookup k2 := by
  unfold Put at hput
  by_cases hv : key.valid = true
  · simp only [hv, Bool.not_true, Bool.false_eq_true, if_false] at hput
    rcases hc : s.call with ⟨f, s1⟩
    have hl : ∀ k2, s1.lookup k2 = s.lookup k2 := by
      intro k2
      have := call_lookup s k2
      rw [hc] at this
      exact this
    rw [hc] at hput
    cases f with
    | some e => simp at hput
    | none =>
      by_cases hi : key.Incomplete = true
      · simp only [hi, if_true, Prod.mk.injEq, Except.ok.injEq] at hput
        obtain ⟨h1, h2⟩ := hput
        subst h2
        subst h1
        refine ⟨by simp [Store.lookup], ?_⟩
        intro k2 hne
        rw [← hl k2]
        have hne2 : ¬ key.complete s1.nextID = k2 := fun h => hne h.symm
        simp [Store.lookup, List.find?_cons, hne2]
      · simp only [hi, Bool.false_eq_true, if_false, Prod.mk.injEq, Except.ok.injEq] at hput
        obtain ⟨h1, h2⟩ := hput
        subst h2
        subst h1
        refine ⟨by simp [Store.lookup], ?_⟩
        intro k2 hne
        rw [← hl k2]
        have hne2 : ¬ key = k2 := fun h => hne h.symm
        simp [Store.lookup, List.find?_cons, hne2]
  · simp [hv] at hput

theorem NewKey_kind (kind stringID : String) (intID : Int) (parent : Option Key) :
    (NewKey kind stringID intID parent).kind = kind := by
  unfold NewKey Key.kind
  simp

/-! ## The claims -/

/-- C1. For `enumerate` with `includeReplies = true` over a scan ordered by `CreatedAt`
descending (whose encoding tells the scanned keys apart and whose root posts have
distinct keys): every post passed to the callback is a root post `R` with a key, and
the replies attached to `R` are exactly the scanned posts whose parent post key is
the key of `R` (a permutation of them: each once, nothing else), ordered ascending by
`CreatedAt`. -/
theorem enumerate_replies_exact_ascending (x : Externals) (c : PostsConnection)
    (hincl : c.options.includeReplies = true)
    (hdesc : Descending (c.scanned x))
    (hinj : EncodeInjectiveOn x (encodedKeys (c.scanned x)))
    (hdistinct : RootKeysDistinct (c.scanned x)) :
    ∀ R ∈ (c.enumerate x).1, ∃ key replies,
      R.isRoot = true ∧ R.Key = some key ∧ R.Replies = some replies ∧
      replies.Perm ((c.scanned x).filter (Post.isReplyTo key)) ∧
      Ascending replies := by
  intro R hR
  rcases enumerate_true_cases x c hincl with hnil | heq
  · rw [hnil] at hR
    simp at hR
  · rw [heq] at hR
    obtain ⟨p, hp, k, hk, hRp⟩ :=
      emitLoop_distinct x _ _ _ (fun _ _ _ _ => rfl)
        (roots_encode_distinct x (c.scanned x) hinj hdistinct) R hR
    have hpm := List.mem_filter.mp hp
    have hkm := key_mem_encodedKeys (c.scanned x) p k hpm.1 hk
    rw [filter_parentEncodesTo_eq x (c.scanned x) k hinj hkm] at hRp
    refine ⟨k, ((c.scanned x).filter (Post.isReplyTo k)).reverse, ?_, ?_, ?_, ?_, ?_⟩
    · rw [hRp]
      exact hpm.2
    · rw [hRp]
      exact hk
    · rw [hRp]
      rfl
    · exact List.reverse_perm _
    · unfold Ascending
      rw [List.pairwise_reverse]
      exact List.Pairwise.sublist (List.filter_sublist _) hdesc

/-- Witness of C1 on the scenario of the spec (channel "news", `maxCount = 10`): the
scan is descending, and root post A is passed with replies [D, C]. -/
theorem enumerate_replies_exact_ascending_witness :
    Descending ((Scenario.connection true 10).scanned Scenario.externals) ∧
      ∃ key replies,
        (Scenario.postA.withReplies [Scenario.postD, Scenario.postC]).isRoot = true ∧
        (Scenario.postA.withReplies [Scenario.postD, Scenario.postC]).Key = some key ∧
        (Scenario.postA.withReplies [Scenario.postD, Scenario.postC]).Replies = some replies ∧
        replies.Perm (((Scenario.connection true 10).scanned Scenario.externals).filter
          (Post.isReplyTo key)) ∧
        Ascending replies :=
  ⟨by decide,
    enumerate_replies_exact_ascending Scenario.externals (Scenario.connection true 10) rfl
      (by decide) (by decide) (by decide)
      (Scenario.postA.withReplies [Scenario.postD, Scenario.postC])
      (show Scenario.postA.withReplies [Scenario.postD, Scenario.postC] ∈
          [Scenario.postA.withReplies [Scenario.postD, Scenario.postC],
            Scenario.postB.withReplies []] from List.mem_cons_self _ _)⟩

/-- C2. For `enumerate` with `includeReplies = true` whose scan completes (every root
post carrying its key): the posts passed to the callback are, one for one and in scan
order, the scanned posts that have no parent post key, each with its replies attached;
no post with a parent post key is passed to the callback; the call returns no error. -/
theorem enumerate_emits_roots_in_scan_order (x : Externals) (c : PostsConnection)
    (hincl : c.options.includeReplies = true) (hcount : 0 ≤ c.options.maxCount)
    (hcap : (x.postSize : Int) * c.options.maxCount ≤ x.maxAlloc)
    (hdone : c.scanCompletes = true) (hkeyed : RootsKeyed (c.scanned x)) :
    List.Forall₂ (fun e p => ∃ replies, e = p.withReplies replies)
        (c.enumerate x).1 ((c.scanned x).filter Post.isRoot) ∧
      (∀ e ∈ (c.enumerate x).1, e.ParentPostKey = none) ∧
      (c.enumerate x).2 = .returned none :=
  enumerate_true_roots x c hincl hcount hcap hdone hkeyed

/-- Witness of C2 on the scenario of the spec (channel "news", `maxCount = 10`). -/
theorem enumerate_emits_roots_in_scan_order_witness :
    List.Forall₂ (fun e p => ∃ replies, e = p.withReplies replies)
        ((Scenario.connection true 10).enumerate Scenario.externals).1
        (((Scenario.connection true 10).scanned Scenario.externals).filter Post.isRoot) ∧
      (∀ e ∈ ((Scenario.connection true 10).enumerate Scenario.externals).1,
        e.ParentPostKey = none) ∧
      ((Scenario.connection true 10).enumerate Scenario.externals).2 = .returned none :=
  enumerate_emits_roots_in_scan_order Scenario.externals (Scenario.connection true 10) rfl
    (by decide) (by decide) (by decide) (by decide)

/-- C3. For `enumerate` with `includeReplies = false` whose scan completes without an
error: the callback is called exactly once per scanned post, in scan order (the posts
passed to it are the scanned posts, root posts and replies alike), and `enumerate`
returns no error. -/
theorem enumerate_flat_emits_scanned (x : Externals) (c : PostsConnection)
    (hincl : c.options.includeReplies = false) (hcount : 0 ≤ c.options.maxCount)
    (hcap : (x.postSize : Int) * c.options.maxCount ≤ x.maxAlloc)
    (hdone : c.scanCompletes = true) :
    c.enumerate x = (c.scanned x, .returned none) :=
  enumerate_false_completes x c hincl hcount hcap hdone

/-- Witness of C3 on the scenario of the spec: all four posts, newest first. -/
theorem enumerate_flat_emits_scanned_witness :
    (Scenario.connection false 10).enumerate Scenario.externals =
        ((Scenario.connection false 10).scanned Scenario.externals, .returned none) ∧
      ((Scenario.connection false 10).scanned Scenario.externals).map (fun p => p.CreatedAt)
        = [4, 3, 2, 1] :=
  ⟨enumerate_flat_emits_scanned Scenario.externals (Scenario.connection false 10) rfl
    (by decide) (by decide) (by decide), by decide⟩

/-- C4. For `enumerate` with `includeReplies = true` whose scan completes: a scanned
reply whose parent post key is the key of no scanned post is not passed to the
callback and is in the replies of no post passed to the callback, and `enumerate`
returns no error. -/
theorem enumerate_drops_orphan_reply (x : Externals) (c : PostsConnection)
    (hincl : c.options.includeReplies = true) (hcount : 0 ≤ c.options.maxCount)
    (hcap : (x.postSize : Int) * c.options.maxCount ≤ x.maxAlloc)
    (hdone : c.scanCompletes = true) (hkeyed : RootsKeyed (c.scanned x))
    (hinj : EncodeInjectiveOn x (encodedKeys (c.scanned x)))
    (r : Post) (parent : Key) (hr : r ∈ c.scanned x) (hparent : r.ParentPostKey = some parent)
    (horphan : ∀ p ∈ c.scanned x, p.Key ≠ some parent) :
    r ∉ (c.enumerate x).1 ∧
      (∀ R ∈ (c.enumerate x).1, ∀ replies, R.Replies = some replies → r ∉ replies) ∧
      (c.enumerate x).2 = .returned none := by
  have h2 := enumerate_true_roots x c hincl hcount hcap hdone hkeyed
  refine ⟨?_, ?_, h2.2.2⟩
  · intro hmem
    have := h2.2.1 r hmem
    rw [hparent] at this
    exact Option.noConfusion this
  · intro R hR replies hreplies hmem
    rw [enumerate_true_completes x c hincl hcount hcap hdone] at hR
    obtain ⟨p, hp, k, rs, hk, hRp, hperm⟩ :=
      emitLoop_perm x _ (fun s => (c.scanned x).filter (Post.parentEncodesTo x s)) _
        (fun _ => List.Perm.refl _) R hR
    have hpm := (List.mem_filter.mp hp).1
    have hrs : replies = rs := by
      rw [hRp] at hreplies
      simpa [Post.withReplies] using hreplies.symm
    rw [hrs] at hmem
    have hin := (List.mem_filter.mp (hperm.subset hmem)).2
    simp only [Post.parentEncodesTo, hparent, decide_eq_true_eq] at hin
    have hpk : parent = k :=
      hinj parent (parent_mem_encodedKeys _ r parent hr hparent) k
        (key_mem_encodedKeys _ p k hpm hk) hin
    exact horphan p hpm (by rw [hk, hpk])

/-- Witness of C4 on the scenario of the spec cut at one row: the window holds reply C
alone, whose parent A is outside it. -/
theorem enumerate_drops_orphan_reply_witness :
    Scenario.postC ∉ ((Scenario.connection true 1).enumerate Scenario.externals).1 ∧
      (∀ R ∈ ((Scenario.connection true 1).enumerate Scenario.externals).1, ∀ replies,
        R.Replies = some replies → Scenario.postC ∉ replies) ∧
      ((Scenario.connection true 1).enumerate Scenario.externals).2 = .returned none :=
  enumerate_drops_orphan_reply Scenario.externals (Scenario.connection true 1) rfl
    (by decide) (by decide) (by decide) (by decide) (by decide) Scenario.postC Scenario.keyA
    (List.mem_singleton.mpr rfl) rfl (by decide)

/-- C5. Scenario: channel "news" holds root posts A (t=3), B (t=1) and replies
C (parent A, t=4), D (parent A, t=2).  `enumerate` with `includeReplies = true` and
`maxCount = 10` calls the callback with exactly two posts, in this order: A with
replies [D, C], then B with no replies; it returns no error. -/
theorem enumerate_scenario_news :
    (Scenario.connection true 10).enumerate Scenario.externals =
      ([Scenario.postA.withReplies [Scenario.postD, Scenario.postC],
        Scenario.postB.withReplies []], .returned none) := by
  rfl

/-- C6, as stated, fails: with `maxCount = 1` the scanned window of the scenario is not
root post A, and A is not passed to the callback. -/
theorem enumerate_scenario_cap_one_not_A :
    ¬ (((Scenario.connection true 1).scanned Scenario.externals).map (fun p => p.Key)
          = [some Scenario.keyA] ∧
        (((Scenario.connection true 1).enumerate Scenario.externals).1).map (fun p => p.Key)
          = [some Scenario.keyA]) := by
  decide

/-- C6, amended. In the scenario with `includeReplies = true` and `maxCount = 1`, the
scanned window holds the newest post of the channel alone, which is reply C (t=4);
its parent A is outside the window, so the callback is never called (C is dropped, A
and D are not scanned), and `enumerate` returns no error. -/
theorem enumerate_scenario_cap_one :
    (Scenario.connection true 1).scanned Scenario.externals = [Scenario.postC] ∧
      (Scenario.connection true 1).enumerate Scenario.externals = ([], .returned none) := by
  exact ⟨rfl, rfl⟩

/-- C7. For a slug that has no ChannelSlug record in the datastore, `GetChannelInfo`,
`CreatePost`, `ListPostsInChannel` and `enumerate` each fail with the error whose
message is "No channel with slug: " followed by the slug, whatever the datastore does
on the lookup; the stored entities are left as they were and the callback of
`enumerate` is never called. -/
theorem unregistered_slug_not_found (repo : ChannelsRepo) (slug : String)
    (hnone : repo.ctx.lookup (repo.channelSlugKeyFor slug) = none) :
    ((repo.GetChannelInfo slug).1 = (none, some (errors.New ("No channel with slug: " ++ slug))) ∧
        (repo.GetChannelInfo slug).2.entities = repo.ctx.entities) ∧
      (∀ markdownSource,
        (repo.CreatePost slug markdownSource).1 =
            (none, some (errors.New ("No channel with slug: " ++ slug))) ∧
          (repo.CreatePost slug markdownSource).2.entities = repo.ctx.entities) ∧
      ((repo.ListPostsInChannel slug).1 =
            ([], some (errors.New ("No channel with slug: " ++ slug))) ∧
          (repo.ListPostsInChannel slug).2.entities = repo.ctx.entities) ∧
      (∀ x includeReplies maxCount,
        PostsConnection.enumerate x
            { repo := repo,
              options := { channelSlug := slug, includeReplies := includeReplies,
                           maxCount := maxCount } } =
          ([], .returned (some (errors.New ("No channel with slug: " ++ slug))))) := by
  have h := channelContentKeyFor_missing repo slug hnone
  rcases hk : repo.channelContentKeyFor slug with ⟨k, s1⟩
  rw [hk] at h
  simp only at h
  obtain ⟨h1, h2⟩ := h
  subst h1
  refine ⟨?_, ?_, ?_, ?_⟩
  · simp [ChannelsRepo.GetChannelInfo, hk, h2]
  · intro markdownSource
    simp [ChannelsRepo.CreatePost, hk, h2]
  · simp [ChannelsRepo.ListPostsInChannel, hk, h2]
  · intro x includeReplies maxCount
    simp [PostsConnection.enumerate, hk]

/-- Witness of C7: the slug "sports" on the datastore of the scenario, which holds the
channel "news" only. -/
theorem unregistered_slug_not_found_witness :
    ((ChannelsRepo.mk Scenario.store Scenario.orgRepo).GetChannelInfo "sports").1 =
        (none, some (errors.New "No channel with slug: sports")) ∧
      ((ChannelsRepo.mk Scenario.store Scenario.orgRepo).CreatePost "sports" "hello").1 =
        (none, some (errors.New "No channel with slug: sports")) ∧
      ((ChannelsRepo.mk Scenario.store Scenario.orgRepo).CreatePost "sports" "hello").2.entities =
        Scenario.store.entities ∧
      ((ChannelsRepo.mk Scenario.store Scenario.orgRepo).ListPostsInChannel "sports").1 =
        ([], some (errors.New "No channel with slug: sports")) ∧
      PostsConnection.enumerate Scenario.externals
          { repo := ChannelsRepo.mk Scenario.store Scenario.orgRepo,
            options := { channelSlug := "sports", includeReplies := true, maxCount := 10 } } =
        ([], .returned (some (errors.New "No channel with slug: sports"))) :=
  have h := unregistered_slug_not_found (ChannelsRepo.mk Scenario.store Scenario.orgRepo)
    "sports" rfl
  ⟨h.1.1, (h.2.1 "hello").1, (h.2.1 "hello").2, h.2.2.1.1, h.2.2.2 Scenario.externals true 10⟩

/-- C8 fails on the code: on an empty datastore whose first remote call fails and
whose second succeeds, `CreateChannel` returns no error although the write of the
ChannelContent failed, and it goes on to write a ChannelSlug record, which holds a nil
content key. -/
theorem createChannel_swallows_first_put_error :
    (Put Scenario.emptyStoreFailingFirstCall
        (NewIncompleteKey "ChannelContent" Scenario.orgRepo.RootKey)
        (Entity.ChannelContent { Key := none, Slug := "news", Description := "" })).1 =
        .error Scenario.timeout ∧
      ((ChannelsRepo.mk Scenario.emptyStoreFailingFirstCall Scenario.orgRepo).CreateChannel
          "news").1 = ({ Key := none, Slug := "news", Description := "" }, none) ∧
      ((ChannelsRepo.mk Scenario.emptyStoreFailingFirstCall Scenario.orgRepo).CreateChannel
          "news").2.entities =
        [(NewKey "ChannelSlug" "news" 0 (some Scenario.orgRoot),
          Entity.ChannelSlug { ContentKey := none })] := by
  exact ⟨rfl, rfl, rfl⟩

/-- C9. For `enumerate` with `includeReplies = false` whose scan yields the posts of
`rows` and then fails with the error `e`: the callback was called with exactly those
posts, in scan order, no further post is delivered, and `enumerate` returns `e`;
`All` returns those posts together with `e`. -/
theorem enumerate_flat_scan_error (x : Externals) (c : PostsConnection)
    (rows : List (Key × Post)) (e : Error) (rest : List NextResult)
    (hincl : c.options.includeReplies = false) (hcount : 0 ≤ c.options.maxCount)
    (hcap : (x.postSize : Int) * c.options.maxCount ≤ x.maxAlloc)
    (hrun : c.nextResults = some (rows.map Except.ok ++ Except.error e :: rest)) :
    c.enumerate x = (rows.map (scannedPost x), .returned (some e)) ∧
      c.All x = .returned (rows.map (scannedPost x), some e) := by
  have hneg := makeslicePanics_eq_false x _ hcount hcap
  have h := scannedPosts_ok_append_error x rows e rest
  have henum : c.enumerate x = (rows.map (scannedPost x), .returned (some e)) := by
    rw [enumerate_eq, hrun]
    simp only [hneg, Bool.false_eq_true, if_false, hincl, enumerateFrom_false, h.1, h.2]
  refine ⟨henum, ?_⟩
  unfold PostsConnection.All
  rw [henum]

/-- Witness of C9 on the scenario of the spec, the third `Next` call failing: posts C
and A are delivered, then the error is returned. -/
theorem enumerate_flat_scan_error_witness :
    (Scenario.failingConnection false 10).enumerate Scenario.externals =
        ([Scenario.postC, Scenario.postA], .returned (some Scenario.timeout)) ∧
      (Scenario.failingConnection false 10).All Scenario.externals =
        .returned ([Scenario.postC, Scenario.postA], some Scenario.timeout) :=
  enumerate_flat_scan_error Scenario.externals (Scenario.failingConnection false 10)
    [(Scenario.keyC, Scenario.storedC), (Scenario.keyA, Scenario.storedA)] Scenario.timeout []
    rfl (by decide) (by decide) rfl

/-- The lookup after `CreateChannel`: for a slug that is not empty, when `CreateChannel`
returns the channel `c` and no error, a lookup of `c.Slug` that the datastore answers
gives `c.Key`, nil or not; a `c.Key` that is not nil is the key under which the
ChannelContent is stored. -/
theorem createChannel_lookup_gives_key (repo : ChannelsRepo) (slug : String) (c : ChannelContent)
    (s2 : Store) (hslug : slug ≠ "")
    (hcreate : repo.CreateChannel slug = ((c, none), s2))
    (hanswer : s2.call.1 = none) :
    (ChannelsRepo.channelContentKeyFor { repo with ctx := s2 } c.Slug).1 = c.Key ∧
      c.Slug = slug ∧ c.Description = "" ∧
      (∀ k, c.Key = some k → s2.lookup k =
        some (Entity.ChannelContent { Key := none, Slug := slug, Description := "" })) := by
  unfold ChannelsRepo.CreateChannel at hcreate
  rcases h1 : Put repo.ctx (NewIncompleteKey "ChannelContent" repo.orgRepo.RootKey)
    (Entity.ChannelContent { Key := none, Slug := slug, Description := "" }) with ⟨r1, s1⟩
  rcases h2 : Put s1 (repo.channelSlugKeyFor slug)
    (Entity.ChannelSlug { ContentKey := keyOf r1 }) with ⟨r2, s3⟩
  simp only [h1, h2, Prod.mk.injEq] at hcreate
  obtain ⟨⟨hc, herr⟩, hs⟩ := hcreate
  subst hs
  subst hc
  refine ⟨?_, rfl, rfl, ?_⟩
  rotate_left
  · intro k hk
    cases r1 with
    | error e => simp [keyOf] at hk
    | ok k1 =>
      simp only [keyOf, Option.some.injEq] at hk
      subst hk
      cases r2 with
      | error e => simp [errOf] at herr
      | ok k2 =>
        have hkind1 := Put_ok_kind _ _ _ _ _ h1
        have hkind2 := Put_ok_kind _ _ _ _ _ h2
        have hne : k1 ≠ k2 := by
          intro h
          rw [h, hkind2] at hkind1
          simp [NewIncompleteKey, ChannelsRepo.channelSlugKeyFor, NewKey_kind] at hkind1
        rw [(Put_ok_lookup _ _ _ _ _ h2).2 k1 hne]
        exact (Put_ok_lookup _ _ _ _ _ h1).1
  cases r2 with
  | error e => simp [errOf] at herr
  | ok k2 =>
    have hcomplete : (repo.channelSlugKeyFor slug).Incomplete = false := by
      unfold ChannelsRepo.channelSlugKeyFor Key.Incomplete NewKey
      simp [PathElement.Incomplete, hslug]
    have hvalid : (repo.channelSlugKeyFor slug).valid = true := by
      unfold Put at h2
      by_cases hv : (repo.channelSlugKeyFor slug).valid = true
      · exact hv
      · simp [hv] at h2
    obtain ⟨_, hlook⟩ := Put_ok_complete s1 s3 _ k2 _ hcomplete h2
    have hkey : ChannelsRepo.channelSlugKeyFor { repo with ctx := s3 } slug =
        repo.channelSlugKeyFor slug := rfl
    unfold ChannelsRepo.channelContentKeyFor Get
    simp only [hkey, hvalid, Bool.not_true, Bool.false_eq_true, if_false, hcomplete]
    rcases hcall : s3.call with ⟨f, s4⟩
    rw [hcall] at hanswer
    simp only at hanswer
    subst hanswer
    have hl4 : s4.lookup (repo.channelSlugKeyFor slug) = s3.lookup (repo.channelSlugKeyFor slug) := by
      have := call_lookup s3 (repo.channelSlugKeyFor slug)
      rw [hcall] at this
      exact this
    simp only [hl4, hlook]

/-- C10 fails on the code, by the defect of C8: on an empty datastore whose first
remote call fails and whose second succeeds, `CreateChannel "news"` succeeds (it
returns no error) and returns a channel of slug "news" whose key is nil; no
ChannelContent was created; the lookup of the slug on the datastore it leaves returns
nil, not the key of a created ChannelContent, and `GetChannelInfo` reports that there
is no channel with the slug. -/
theorem createChannel_round_trip_broken :
    ((ChannelsRepo.mk Scenario.emptyStoreFailingFirstCall Scenario.orgRepo).CreateChannel
        "news").1 = ({ Key := none, Slug := "news", Description := "" }, none) ∧
      (∀ kv ∈ ((ChannelsRepo.mk Scenario.emptyStoreFailingFirstCall
          Scenario.orgRepo).CreateChannel "news").2.entities,
        kv.1.kind ≠ "ChannelContent") ∧
      (ChannelsRepo.channelContentKeyFor
        { ctx := ((ChannelsRepo.mk Scenario.emptyStoreFailingFirstCall
            Scenario.orgRepo).CreateChannel "news").2,
          orgRepo := Scenario.orgRepo } "news").1 = none ∧
      (ChannelsRepo.GetChannelInfo
        { ctx := ((ChannelsRepo.mk Scenario.emptyStoreFailingFirstCall
            Scenario.orgRepo).CreateChannel "news").2,
          orgRepo := Scenario.orgRepo } "news").1 =
        (none, some (errors.New "No channel with slug: news")) := by
  exact ⟨rfl, by decide, rfl, rfl⟩

/-! ## Lemmas on sequences of operations -/

theorem lookup_of_entities_eq (s s2 : Store) (k : Key) (h : s2.entities = s.entities) :
    s2.lookup k = s.lookup k := by
  unfold Store.lookup
  rw [h]

theorem NewKey_last (kind stringID : String) (intID : Int) (parent : Option Key) :
    (NewKey kind stringID intID parent).path.getLast? = some ⟨kind, stringID, intID⟩ := by
  unfold NewKey
  simp

theorem complete_last (key : Key) (id : Int) (e : PathElement)
    (h : key.path.getLast? = some e) :
    (key.complete id).path.getLast? = some { e with intID := id } := by
  unfold Key.complete
  simp [h]

theorem Put_lookup_other (s : Store) (key k2 : Key) (src : Entity)
    (hne : key ≠ k2) (hcomplete : ∀ id, key.complete id ≠ k2) :
    (Put s key src).2.lookup k2 = s.lookup k2 := by
  unfold Put
  by_cases hv : key.valid = true
  · simp only [hv, Bool.not_true, Bool.false_eq_true, if_false]
    rcases hc : s.call with ⟨f, s1⟩
    have hl : s1.lookup k2 = s.lookup k2 := by
      have := call_lookup s k2
      rw [hc] at this
      exact this
    cases f with
    | some e => exact hl
    | none =>
      simp only
      by_cases hi : key.Incomplete = true
      · simp only [hi, if_true]
        rw [← hl]
        simp [Store.lookup, List.find?_cons, hcomplete s1.nextID]
      · simp only [hi, Bool.false_eq_true, if_false]
        rw [← hl]
        simp [Store.lookup, List.find?_cons, hne]
  · simp [hv]

theorem Put_lookup_of_last (s : Store) (key k2 : Key) (src : Entity) (e e2 : PathElement)
    (hkey : key.path.getLast? = some e) (hk2 : k2.path.getLast? = some e2)
    (hdiff : e.kind ≠ e2.kind ∨ e.stringID ≠ e2.stringID) :
    (Put s key src).2.lookup k2 = s.lookup k2 := by
  apply Put_lookup_other
  · intro h
    rw [h, hk2] at hkey
    simp only [Option.some.injEq] at hkey
    rw [hkey] at hdiff
    simp at hdiff
  · intro id h
    have hc := complete_last key id e hkey
    rw [h, hk2] at hc
    simp only [Option.some.injEq] at hc
    rw [hc] at hdiff
    simp at hdiff

theorem channelContentKeyFor_lookup (repo : ChannelsRepo) (slug : String) (k : Key) :
    (repo.channelContentKeyFor slug).2.lookup k = repo.ctx.lookup k := by
  apply lookup_of_entities_eq
  unfold ChannelsRepo.channelContentKeyFor
  have hent := Get_entities repo.ctx (repo.channelSlugKeyFor slug)
  rcases hg : Get repo.ctx (repo.channelSlugKeyFor slug) with ⟨r, s1⟩
  rw [hg] at hent
  simp only at hent
  cases r with
  | error e =>
    simp only [hg]
    exact hent
  | ok v =>
    cases v <;>
    · simp only [hg]
      exact hent

theorem finish_lookup (q : Query) (s : Store) (k : Key) :
    (q.finish s).lookup k = s.lookup k := by
  apply lookup_of_entities_eq
  unfold Query.finish
  cases q.err <;> rfl

theorem run_lookup (orgRepo : OrgRepo) (s : Store) (slug : String) (op : RepoOp)
    (hop : op.createsChannel slug = false) :
    (op.run orgRepo s).lookup (NewKey "ChannelSlug" slug 0 orgRepo.RootKey) =
      s.lookup (NewKey "ChannelSlug" slug 0 orgRepo.RootKey) := by
  have hslug := NewKey_last "ChannelSlug" slug 0 orgRepo.RootKey
  cases op with
  | CreateChannel slug2 =>
    have hne : slug2 ≠ slug := by simpa [RepoOp.createsChannel] using hop
    simp only [RepoOp.run, ChannelsRepo.CreateChannel, ChannelsRepo.channelSlugKeyFor]
    rw [Put_lookup_of_last _ _ _ _ _ _ (NewKey_last "ChannelSlug" slug2 0 orgRepo.RootKey) hslug
      (Or.inr hne)]
    exact Put_lookup_of_last _ _ _ _ _ _
      (NewKey_last "ChannelContent" "" 0 orgRepo.RootKey) hslug (Or.inl (by simp))
  | GetChannelInfo slug2 =>
    simp only [RepoOp.run, ChannelsRepo.GetChannelInfo]
    have h1 := channelContentKeyFor_lookup { ctx := s, orgRepo := orgRepo } slug2
      (NewKey "ChannelSlug" slug 0 orgRepo.RootKey)
    rcases hk : ChannelsRepo.channelContentKeyFor { ctx := s, orgRepo := orgRepo } slug2
      with ⟨k, s1⟩
    rw [hk] at h1
    simp only at h1
    cases k with
    | none => exact h1
    | some ck =>
      simp only
      have h2 := lookup_of_entities_eq s1 (Get s1 ck).2
        (NewKey "ChannelSlug" slug 0 orgRepo.RootKey) (Get_entities s1 ck)
      rcases hg : Get s1 ck with ⟨r, s2⟩
      rw [hg] at h2
      simp only at h2
      rw [← h1, ← h2]
      cases r with
      | error e => rfl
      | ok v => cases v <;> rfl
  | CreatePost slug2 markdownSource =>
    simp only [RepoOp.run, ChannelsRepo.CreatePost]
    have h1 := channelContentKeyFor_lookup { ctx := s, orgRepo := orgRepo } slug2
      (NewKey "ChannelSlug" slug 0 orgRepo.RootKey)
    rcases hk : ChannelsRepo.channelContentKeyFor { ctx := s, orgRepo := orgRepo } slug2
      with ⟨k, s1⟩
    rw [hk] at h1
    simp only at h1
    cases k with
    | none => exact h1
    | some ck =>
      simp only
      have h2 := Put_lookup_of_last s1 (NewIncompleteKey "Post" (some ck))
        (NewKey "ChannelSlug" slug 0 orgRepo.RootKey)
        (Entity.Post { Post.zero with Content := NewMarkdownDocument markdownSource }) _ _
        (NewKey_last "Post" "" 0 (some ck)) hslug (Or.inl (by simp))
      rcases hp : Put s1 (NewIncompleteKey "Post" (some ck))
        (Entity.Post { Post.zero with Content := NewMarkdownDocument markdownSource })
        with ⟨r, s2⟩
      rw [hp] at h2
      simp only at h2
      rw [← h1, ← h2]
      cases r <;> rfl
  | ListPostsInChannel slug2 =>
    simp only [RepoOp.run, ChannelsRepo.ListPostsInChannel]
    have h1 := channelContentKeyFor_lookup { ctx := s, orgRepo := orgRepo } slug2
      (NewKey "ChannelSlug" slug 0 orgRepo.RootKey)
    rcases hk : ChannelsRepo.channelContentKeyFor { ctx := s, orgRepo := orgRepo } slug2
      with ⟨k, s1⟩
    rw [hk] at h1
    simp only at h1
    cases k with
    | none => exact h1
    | some ck =>
      simp only
      rw [finish_lookup]
      exact h1

theorem runOps_lookup (orgRepo : OrgRepo) (slug : String) (ops : List RepoOp) (s : Store)
    (hops : ∀ op ∈ ops, op.createsChannel slug = false) :
    (runOps orgRepo s ops).lookup (NewKey "ChannelSlug" slug 0 orgRepo.RootKey) =
      s.lookup (NewKey "ChannelSlug" slug 0 orgRepo.RootKey) := by
  induction ops generalizing s with
  | nil => rfl
  | cons op rest ih =>
    simp only [runOps, List.foldl_cons]
    have h := ih (op.run orgRepo s) (fun o ho => hops o (List.mem_cons_of_mem _ ho))
    simp only [runOps] at h
    rw [h]
    exact run_lookup orgRepo s slug op (hops op (List.mem_cons_self _ _))

theorem channelContentKeyFor_congr (orgRepo : OrgRepo) (slug : String) (s s2 : Store)
    (hl : s2.lookup (NewKey "ChannelSlug" slug 0 orgRepo.RootKey) =
      s.lookup (NewKey "ChannelSlug" slug 0 orgRepo.RootKey))
    (hf : s2.faults = s.faults) :
    (ChannelsRepo.channelContentKeyFor { ctx := s2, orgRepo := orgRepo } slug).1 =
      (ChannelsRepo.channelContentKeyFor { ctx := s, orgRepo := orgRepo } slug).1 := by
  have hc1 : s2.call.1 = s.call.1 := by
    unfold Store.call
    rw [hf]
    cases s.faults <;> rfl
  have hc2 : s2.call.2.lookup (NewKey "ChannelSlug" slug 0 orgRepo.RootKey) =
      s.call.2.lookup (NewKey "ChannelSlug" slug 0 orgRepo.RootKey) := by
    rw [call_lookup, call_lookup, hl]
  unfold ChannelsRepo.channelContentKeyFor Get
  simp only [ChannelsRepo.channelSlugKeyFor]
  by_cases hv : (NewKey "ChannelSlug" slug 0 orgRepo.RootKey).valid = true
  · simp only [hv, Bool.not_true, Bool.false_eq_true, if_false]
    rcases h2 : s2.call with ⟨f2, t2⟩
    rcases h1 : s.call with ⟨f1, t1⟩
    rw [h2, h1] at hc1 hc2
    simp only at hc1 hc2
    subst hc1
    cases f2 with
    | some e => rfl
    | none =>
      simp only
      by_cases hi : (NewKey "ChannelSlug" slug 0 orgRepo.RootKey).Incomplete = true
      · simp [hi]
      · simp only [hi, Bool.false_eq_true, if_false, hc2]
        cases t1.lookup (NewKey "ChannelSlug" slug 0 orgRepo.RootKey) with
        | none => rfl
        | some v => cases v <;> rfl
  · simp [hv]

/-! ## The claims on sequences of operations, nested replies and the buffer -/

/-- C11, as stated, fails: on the datastore of the scenario, where the slug "news" has
its ChannelSlug record, a further `CreateChannel` for "news" replaces the content key
the record holds: the lookup of the slug gives another key than before. -/
theorem createChannel_again_replaces_contentKey :
    (ChannelsRepo.channelContentKeyFor
        { ctx := Scenario.store, orgRepo := Scenario.orgRepo } "news").1 =
        some Scenario.newsKey ∧
      (ChannelsRepo.channelContentKeyFor
        { ctx := runOps Scenario.orgRepo Scenario.store [RepoOp.CreateChannel "news"],
          orgRepo := Scenario.orgRepo } "news").1 =
        some (NewKey "ChannelContent" "" 15 (some Scenario.orgRoot)) ∧
      (ChannelsRepo.channelContentKeyFor
        { ctx := runOps Scenario.orgRepo Scenario.store [RepoOp.CreateChannel "news"],
          orgRepo := Scenario.orgRepo } "news").1 ≠
        (ChannelsRepo.channelContentKeyFor
          { ctx := Scenario.store, orgRepo := Scenario.orgRepo } "news").1 := by
  decide

/-- C11, amended. No sequence of `GetChannelInfo`, `CreatePost`, `ListPostsInChannel`
and `CreateChannel` for other slugs, with any arguments and whatever calls fail,
changes the ChannelSlug record of a slug; and on the datastore after the sequence the
lookup of the slug returns the key it returns before the sequence, the datastore
answering alike. -/
theorem channelSlug_kept_by_other_operations (orgRepo : OrgRepo) (slug : String)
    (ops : List RepoOp) (s : Store)
    (hops : ∀ op ∈ ops, op.createsChannel slug = false) :
    (runOps orgRepo s ops).lookup
        (ChannelsRepo.channelSlugKeyFor { ctx := s, orgRepo := orgRepo } slug) =
        s.lookup (ChannelsRepo.channelSlugKeyFor { ctx := s, orgRepo := orgRepo } slug) ∧
      ∀ faults,
        (ChannelsRepo.channelContentKeyFor
          { ctx := { runOps orgRepo s ops with faults := faults }, orgRepo := orgRepo }
          slug).1 =
        (ChannelsRepo.channelContentKeyFor
          { ctx := { s with faults := faults }, orgRepo := orgRepo } slug).1 := by
  have h := runOps_lookup orgRepo slug ops s hops
  refine ⟨h, ?_⟩
  intro faults
  apply channelContentKeyFor_congr
  · exact h
  · rfl

/-- Witness of C11 amended: on the datastore of the scenario, a post created in "news",
a channel "sports" created, and two reads leave the record of "news" as it was. -/
theorem channelSlug_kept_by_other_operations_witness :
    (runOps Scenario.orgRepo Scenario.store
        [RepoOp.CreatePost "news" "hello", RepoOp.CreateChannel "sports",
          RepoOp.GetChannelInfo "news", RepoOp.ListPostsInChannel "news"]).lookup
        (NewKey "ChannelSlug" "news" 0 (some Scenario.orgRoot)) =
      some (Entity.ChannelSlug { ContentKey := some Scenario.newsKey }) :=
  (channelSlug_kept_by_other_operations Scenario.orgRepo "news"
    [RepoOp.CreatePost "news" "hello", RepoOp.CreateChannel "sports",
      RepoOp.GetChannelInfo "news", RepoOp.ListPostsInChannel "news"] Scenario.store
    (by decide)).1

/-- C12. For `enumerate` with `includeReplies = true` (the encoding telling the scanned
keys apart): a post whose parent post key is the key of scanned replies only, not of a
scanned root post, is not passed to the callback and is in the replies of no post
passed to the callback; every reply that is attached to a post passed to the callback
is a scanned post whose parent post key is the key of a scanned root post. -/
theorem enumerate_hides_reply_to_reply (x : Externals) (c : PostsConnection)
    (hincl : c.options.includeReplies = true)
    (hinj : EncodeInjectiveOn x (encodedKeys (c.scanned x)))
    (r : Post) (parent : Key) (hparent : r.ParentPostKey = some parent)
    (hreply : ∀ p ∈ c.scanned x, p.Key = some parent → p.isRoot = false) :
    r ∉ (c.enumerate x).1 ∧
      (∀ R ∈ (c.enumerate x).1, ∀ replies, R.Replies = some replies → r ∉ replies) ∧
      (∀ R ∈ (c.enumerate x).1, ∀ replies, R.Replies = some replies → ∀ q ∈ replies,
        q ∈ c.scanned x ∧
          ∃ root ∈ c.scanned x, root.isRoot = true ∧ root.Key.isSome = true ∧
            q.ParentPostKey = root.Key) := by
  have hvisible : ∀ R ∈ (c.enumerate x).1, ∀ replies, R.Replies = some replies →
      ∀ q ∈ replies, q ∈ c.scanned x ∧
        ∃ root ∈ c.scanned x, root.isRoot = true ∧ root.Key.isSome = true ∧
          q.ParentPostKey = root.Key := by
    intro R hR replies hreplies q hq
    rcases enumerate_true_cases x c hincl with hnil | heq
    · rw [hnil] at hR
      simp at hR
    · rw [heq] at hR
      obtain ⟨p, hp, k, rs, hk, hRp, hperm⟩ :=
        emitLoop_perm x _ (fun s => (c.scanned x).filter (Post.parentEncodesTo x s)) _
          (fun _ => List.Perm.refl _) R hR
      have hpm := List.mem_filter.mp hp
      have hrs : replies = rs := by
        rw [hRp] at hreplies
        simpa [Post.withReplies] using hreplies.symm
      rw [hrs] at hq
      have hqm := List.mem_filter.mp (hperm.subset hq)
      refine ⟨hqm.1, p, hpm.1, hpm.2, by simp [hk], ?_⟩
      cases hqp : q.ParentPostKey with
      | none => simp [Post.parentEncodesTo, hqp] at hqm
      | some pk =>
        have henc : x.Encode pk = x.Encode k := by
          simpa [Post.parentEncodesTo, hqp] using hqm.2
        rw [hk, hinj pk (parent_mem_encodedKeys _ q pk hqm.1 hqp) k
          (key_mem_encodedKeys _ p k hpm.1 hk) henc]
  refine ⟨?_, ?_, hvisible⟩
  · intro hmem
    rcases enumerate_true_cases x c hincl with hnil | heq
    · rw [hnil] at hmem
      simp at hmem
    · rw [heq] at hmem
      obtain ⟨p, hp, k, rs, _, hRp, _⟩ :=
        emitLoop_perm x _ (fun s => (c.scanned x).filter (Post.parentEncodesTo x s)) _
          (fun _ => List.Perm.refl _) r hmem
      have hroot := (List.mem_filter.mp hp).2
      rw [hRp] at hparent
      simp [Post.withReplies, Post.isRoot] at hparent hroot
      rw [hroot] at hparent
      exact Option.noConfusion hparent
  · intro R hR replies hreplies hmem
    obtain ⟨_, root, hroot, hisRoot, _, hkey⟩ := hvisible R hR replies hreplies r hmem
    rw [hparent] at hkey
    have := hreply root hroot hkey.symm
    rw [hisRoot] at this
    exact Bool.noConfusion this

/-- Witness of C12 on the scenario with reply E to reply C, both inside the window: E
is not passed to the callback, which gets A and B, and E is in the replies of
neither. -/
theorem enumerate_hides_reply_to_reply_witness :
    (Scenario.postC ∈ (Scenario.nestedConnection true 10).scanned Scenario.externals ∧
        Scenario.postC.Key = Scenario.postE.ParentPostKey) ∧
      Scenario.postE ∉ ((Scenario.nestedConnection true 10).enumerate Scenario.externals).1 ∧
      (∀ R ∈ ((Scenario.nestedConnection true 10).enumerate Scenario.externals).1,
        ∀ replies, R.Replies = some replies → Scenario.postE ∉ replies) ∧
      (((Scenario.nestedConnection true 10).enumerate Scenario.externals).1).map
        (fun p => p.Key) = [some Scenario.keyA, some Scenario.keyB] :=
  have h := enumerate_hides_reply_to_reply Scenario.externals
    (Scenario.nestedConnection true 10) rfl (by decide) Scenario.postE Scenario.keyC rfl
    (by decide)
  ⟨⟨List.mem_cons_of_mem _ (List.mem_cons_self _ _), rfl⟩, h.1, h.2.1, by decide⟩

/-- C13. For `enumerate` with `includeReplies = true` whose scan fails at some step
with the error `e` (the buffer having been allocated): the call returns `e` and the
callback was called zero times, whatever number of posts the scan read before. -/
theorem enumerate_nested_scan_error_emits_nothing (x : Externals) (c : PostsConnection)
    (it : List NextResult) (e : Error)
    (hincl : c.options.includeReplies = true) (hcount : 0 ≤ c.options.maxCount)
    (hcap : (x.postSize : Int) * c.options.maxCount ≤ x.maxAlloc)
    (hrun : c.nextResults = some it) (herr : scanError it = some e) :
    c.enumerate x = ([], .returned (some e)) := by
  rw [enumerate_eq, hrun]
  simp only [makeslicePanics_eq_false x _ hcount hcap, Bool.false_eq_true, if_false, hincl]
  exact enumerateFrom_true_error x it e herr

/-- Witness of C13 on the scenario, the third `Next` call failing: two posts were read,
the callback is not called; with `includeReplies = false` the same scan has delivered
two posts. -/
theorem enumerate_nested_scan_error_emits_nothing_witness :
    (Scenario.failingConnection true 10).enumerate Scenario.externals =
        ([], .returned (some Scenario.timeout)) ∧
      (((Scenario.failingConnection true 10).scanned Scenario.externals).length = 2 ∧
        ((Scenario.failingConnection false 10).enumerate Scenario.externals).1.length = 2) :=
  ⟨enumerate_nested_scan_error_emits_nothing Scenario.externals
      (Scenario.failingConnection true 10)
      [.ok (Scenario.keyC, Scenario.storedC), .ok (Scenario.keyA, Scenario.storedA),
        .error Scenario.timeout]
      Scenario.timeout rfl (by decide) (by decide) rfl rfl,
    by decide⟩

/-- C14, as stated, fails: for the channel "news", which resolves, and
`maxCount = 2^62`, which is not negative, the allocation of the buffer panics: the
memory asked for is beyond `maxAlloc`, whatever the size of a `Post`. -/
theorem enumerate_huge_maxCount_panics :
    (0 : Int) ≤ 4611686018427387904 ∧
      ((Scenario.connection true 4611686018427387904).nextResults).isSome = true ∧
      (Scenario.connection true 4611686018427387904).enumerate Scenario.externals =
        ([], .panicked "makeslice: cap out of range") ∧
      (Scenario.connection true 4611686018427387904).enumerate
          { Scenario.externals with postSize := 1 } =
        ([], .panicked "makeslice: cap out of range") := by
  exact ⟨by decide, rfl, rfl, rfl⟩

/-- C14, amended. For a channel that resolves, in both modes: when `maxCount` is
negative, or the buffer of capacity `maxCount` is beyond what `makeslice` accepts, the
allocation panics before any post is scanned or passed to the callback, whatever the
scan would give, and the call returns no error value. -/
theorem enumerate_refused_capacity_panics (x : Externals) (c : PostsConnection)
    (it : List NextResult) (hrun : c.nextResults = some it)
    (hrefused : c.options.maxCount < 0 ∨
      (x.maxAlloc : Int) < (x.postSize : Int) * c.options.maxCount) :
    c.enumerate x = ([], .panicked "makeslice: cap out of range") := by
  rw [enumerate_eq, hrun]
  have hp : makeslicePanics x c.options.maxCount = true := by
    unfold makeslicePanics
    rcases hrefused with h | h <;> simp [h]
  simp [hp]

/-- Witness of C14 amended on the scenario, whose scan would give the four posts:
`maxCount = -1` panics in both modes. -/
theorem enumerate_refused_capacity_panics_witness :
    (Scenario.connection true (-1)).enumerate Scenario.externals =
        ([], .panicked "makeslice: cap out of range") ∧
      (Scenario.connection false (-1)).enumerate Scenario.externals =
        ([], .panicked "makeslice: cap out of range") :=
  ⟨enumerate_refused_capacity_panics Scenario.externals (Scenario.connection true (-1))
      [.ok (Scenario.keyC, Scenario.storedC), .ok (Scenario.keyA, Scenario.storedA),
        .ok (Scenario.keyD, Scenario.storedD), .ok (Scenario.keyB, Scenario.storedB)]
      (by rfl) (Or.inl (by decide)),
    enumerate_refused_capacity_panics Scenario.externals (Scenario.connection false (-1))
      [.ok (Scenario.keyC, Scenario.storedC), .ok (Scenario.keyA, Scenario.storedA),
        .ok (Scenario.keyD, Scenario.storedD), .ok (Scenario.keyB, Scenario.storedB)]
      (by rfl) (Or.inl (by decide))⟩
